import Mathlib

/-!
Shallow embedding of `src/vidstab/VidStab.py`, the trajectory-smoothing and
transform-compensation core of the `python_video_stab` repository.  Machine
floats are modelled as exact rationals, frames as abstract values, and the
external OpenCV estimator as an oracle returning an optional motion delta
(spec section 6).  Bounded `deque(maxlen=w)` buffers are modelled by lists
with an explicit eviction-on-push operation.
-/

/-- Component triple `(dx, dy, da)` used for motion deltas, trajectory rows and
compensation transforms (`VidStab.py` lines 120 and 126-132). -/
abbrev Vec3 : Type := ℚ × ℚ × ℚ

/-- Accumulator state threaded through analysis: the instance fields
`self._raw_transforms` and `self._trajectory` (lines 79-80). -/
structure AnalysisState where
  raw : List Vec3
  traj : List Vec3

/-- Fresh accumulator state, as produced by `__init__` (lines 79-80). -/
def initAnalysisState : AnalysisState := ⟨[], []⟩

/-- Last trajectory row, or the origin for an empty trajectory. -/
def lastOr (l : List Vec3) : Vec3 := l.getLast?.getD 0

/-- One step of `_gen_next_raw_transform` (lines 91-134).  The external
tracking and fitting (`calcOpticalFlowPyrLK` / `estimateRigidTransform`) is
abstracted per spec section 6 as an optional delta: a failed fit
(`transform is None`, line 117) or too few matched points yields
`dx = dy = da = 0` (line 118).  The delta is appended to the raw transforms
(line 126) and accumulated into the trajectory (lines 128-132). -/
def gen_next_raw_transform (st : AnalysisState) (fit : Option Vec3) : AnalysisState :=
  let d : Vec3 := match fit with
    | some v => v
    | none => 0
  { raw := st.raw ++ [d]
    traj := st.traj ++ [match st.traj.getLast? with
      | none => d
      | some t => t + d] }

/-- Repeated `_gen_next_raw_transform` calls over a stream of estimator
outputs, one per consecutive frame pair. -/
def runAnalysisFits (st : AnalysisState) (fits : List (Option Vec3)) : AnalysisState :=
  fits.foldl gen_next_raw_transform st

/-- Analysis over a stream of successful motion deltas. -/
def runAnalysis (st : AnalysisState) (deltas : List Vec3) : AnalysisState :=
  runAnalysisFits st (deltas.map some)

/-- Trajectory accumulated from a delta stream starting from a fresh state. -/
def trajOf (deltas : List Vec3) : List Vec3 := (runAnalysis initAnalysisState deltas).traj

/-- Sum of the trailing window of `w` trajectory rows ending at index `i`. -/
def windowSum (T : List Vec3) (w i : Nat) : Vec3 := ((T.drop (i + 1 - w)).take w).sum

/-- Componentwise trailing mean `average(T[i-w+1 .. i])` of window `w` ending
at index `i` (spec section 4.3). -/
def windowMean (T : List Vec3) (w i : Nat) : Vec3 :=
  ((windowSum T w i).1 / (w : ℚ),
   (windowSum T w i).2.1 / (w : ℚ),
   (windowSum T w i).2.2 / (w : ℚ))

/-- First defined entry of a list of optional values. -/
def firstSome {β : Type} : List (Option β) → Option β
  | [] => none
  | some a :: _ => some a
  | none :: t => firstSome t

/-- Backward fill: every undefined entry is replaced by the first subsequently
defined value (spec glossary, "Back-fill"). -/
def bfill {β : Type} : List (Option β) → List (Option β)
  | [] => []
  | some a :: t => some a :: bfill t
  | none :: t => firstSome t :: bfill t

/-- Trailing rolling means of window `w`, defined only from index `w - 1` on
(spec section 4.3: `mean_i` is undefined for `i < w - 1`). -/
def rollingMeans (T : List Vec3) (w : Nat) : List (Option Vec3) :=
  (List.range T.length).map fun i =>
    if w - 1 ≤ i then some (windowMean T w i) else none

/-- Modelled from the spec: `bfill_rolling_mean` lives in `vidstab/utils.py`,
which is not under `src/`; spec section 4.3 defines it as the trailing rolling
mean of window `w` over each of the three components, undefined for
`i < w - 1` and then back-filled with the first fully-defined mean. -/
def bfill_rolling_mean (T : List Vec3) (w : Nat) : List Vec3 :=
  (bfill (rollingMeans T w)).map fun o => o.getD 0

/-- `_gen_transforms` (lines 314-317): the trajectory array, the smoothed
trajectory, and the compensation transforms
`np.array(self._raw_transforms) + (self.smoothed_trajectory - self.trajectory)`. -/
def gen_transforms_arrays (st : AnalysisState) (w : Nat) :
    List Vec3 × List Vec3 × List Vec3 :=
  let smoothed := bfill_rolling_mean st.traj w
  (st.traj, smoothed,
    List.zipWith (fun r c => r + c) st.raw
      (List.zipWith (fun s t => s - t) smoothed st.traj))

/-- Public `gen_transforms` (lines 319-330): drives the analysis over the whole
source and recomputes the arrays.  It re-creates the frame queues but does not
reset `_raw_transforms` or `_trajectory`, which are only initialised in
`__init__` (lines 79-80), so the accumulator state carries over between calls.
Returns the updated state plus the `(trajectory, smoothed_trajectory)` pair. -/
def gen_transforms_run (st : AnalysisState) (fits : List (Option Vec3)) (w : Nat) :
    AnalysisState × List Vec3 × List Vec3 :=
  let st2 := runAnalysisFits st fits
  (st2, st2.traj, bfill_rolling_mean st2.traj w)

/-- Python exception kinds relevant to `_apply_transforms`. -/
inductive PyError where
  | valueError : PyError
  | keyError : PyError
  | indexError : PyError

/-- Border types accepted by the validation test at line 208. -/
def valid_border_types : List String := ["black", "reflect", "replicate", "trail"]

/-- The `border_modes` dictionary (lines 211-213) mapping border type names to
OpenCV border-mode constants; note it has no entry for `"trail"`. -/
def border_modes : List (String × Nat) :=
  [("black", 0), ("reflect", 2), ("replicate", 1)]

/-- Border-type handling at the top of `_apply_transforms` (lines 208-214):
an unknown type raises `ValueError`; a known type is looked up in
`border_modes`, and a missing dictionary key raises `KeyError`. -/
def border_mode_setup (border_type : String) : Except PyError Nat :=
  if border_type ∈ valid_border_types then
    match border_modes.lookup border_type with
    | some m => Except.ok m
    | none => Except.error PyError.keyError
  else Except.error PyError.valueError

/-- Negative border handling (lines 216-220): a negative requested size is
replaced by a 100-pixel border plus a post-warp crop of `100 + |size|`. -/
def border_setup_size (border_size : Int) : Int × Int :=
  if border_size < 0 then (100, 100 + (border_size.natAbs : Int))
  else (border_size, 0)

/-- Output length of one spatial dimension of a rendered frame with original
length `d`: the working size adds `2 * border_size` (lines 224-225),
`copyMakeBorder` adds `2 * border_size` on each side (lines 257-263), the warp
keeps that size (lines 264-267), and the final slice removes
`border_size + neg_border_size` from each side (lines 269-271), clamped at
zero as a Python slice is. -/
def output_dim (d : Int) (border_size : Int) : Int :=
  let p := border_setup_size border_size
  let bordered := d + 4 * p.1
  let buffer := p.1 + p.2
  max (bordered - 2 * buffer) 0

/-- Frame layering step (lines 273-277): with a layering function configured,
a frame whose queue index `i` satisfies `i > 1` is combined with the previous
output as background, and every produced frame becomes the next background. -/
def layerLoop {α : Type} (layer : α → α → α) : α → List (Nat × α) → List α
  | _, [] => []
  | prev, (i, t) :: rest =>
    let t2 := if 1 < i then layer t prev else t
    t2 :: layerLoop layer t2 rest

/-- Chain that layers every frame onto the running background, used to state
the corrected layering behaviour from index 2 on. -/
def layerChain {α : Type} (layer : α → α → α) : α → List α → List α
  | _, [] => []
  | bg, t :: rest =>
    let t2 := layer t bg
    t2 :: layerChain layer t2 rest

/-- Bounded push of `deque(maxlen = w)`: append on the right and drop from the
left whenever the capacity `w` is exceeded. -/
def dpush {β : Type} (w : Nat) (l : List β) (x : β) : List β :=
  (l ++ [x]).drop (l.length + 1 - w)

/-- Result of `_init_trajectory` (lines 136-194): the frame queue, the queue
indices, the number of estimator invocations, and the source frames left
unread. -/
structure InitResult (α : Type) where
  queue : List α
  ids : List Nat
  est : Nat
  rem : List α

/-- Frame-reading loop of `_init_trajectory` (lines 169-191) in the
`stabilize` configuration (`gen_all = False`, no frame cap): each grabbed
frame is pushed into the bounded queue, its index is pushed into the bounded
index queue (0 for the first, last + 1 afterwards, lines 178-181), one
estimator call is made (line 182), and the loop breaks once the newest index
reaches `smoothing_window - 1` (lines 184-187). -/
def initLoop {α : Type} (w : Nat) : List α → List α → List Nat → Nat → InitResult α
  | [], q, ids, est => ⟨q, ids, est, []⟩
  | f :: rest, q, ids, est =>
    let j := match ids.getLast? with
      | none => 0
      | some m => m + 1
    let q2 := dpush w q f
    let ids2 := dpush w ids j
    if w - 1 ≤ j then ⟨q2, ids2, est + 1, rest⟩
    else initLoop w rest q2 ids2 (est + 1)

/-- Result of the render loop of `_apply_transforms`: emitted `(index, frame)`
pairs, successful source reads, estimator invocations, and whether the loop
terminated without an uncaught `IndexError`. -/
structure LoopResult (α : Type) where
  emitted : List (Nat × α)
  reads : Nat
  est : Nat
  ok : Bool

/-- Drain phase of the `_apply_transforms` while-loop (lines 230-246) once the
source is exhausted: every iteration attempts a read that fails, then pops an
index and a frame; popping from an empty deque is an `IndexError` (`ok = false`).
The `Bool` argument is the `grabbed_frame` flag at loop entry. -/
def drainLoop {α : Type} : List α → List Nat → Bool → List (Nat × α) × Bool
  | [], _, false => ([], true)
  | [], _, true => ([], false)
  | x :: qt, ids, _ =>
    match ids with
    | i :: it =>
      let r := drainLoop qt it false
      ((i, x) :: r.1, r.2)
    | [] => ([], false)

/-- Streaming phase of the `_apply_transforms` while-loop (lines 230-246)
while source frames remain: read a frame, push it (line 236), push
`frame_queue_inds[-1] + 1` — an `IndexError` when the index deque is empty
(line 237) —, invoke the estimator (lines 238-239), then pop an index and a
frame for rendering (lines 241-242).  When the source runs out the loop
continues as `drainLoop` with `grabbed_frame` still true (line 229 initialises
it to true). -/
def streamLoop {α : Type} (w : Nat) : List α → List α → List Nat → LoopResult α
  | [], queue, ids =>
    let r := drainLoop queue ids true
    ⟨r.1, 0, 0, r.2⟩
  | f :: rest, queue, ids =>
    match ids.getLast? with
    | none => ⟨[], 1, 0, false⟩
    | some m =>
      match dpush w queue f, dpush w ids (m + 1) with
      | x :: qt, i :: it =>
        let r := streamLoop w rest qt it
        ⟨(i, x) :: r.emitted, r.reads + 1, r.est + 1, r.ok⟩
      | _, _ => ⟨[], 1, 0, false⟩

/-- Result of a `stabilize` run on an abstract frame source. -/
structure StabResult (α : Type) where
  emitted : List (Nat × α)
  shapeFrame : α
  framesRead : Nat
  estCalls : Nat
  ok : Bool

/-- Frame flow of `stabilize` (lines 369-390) with default flags: the first
frame is read and used to seed the detector (lines 151-161), `_init_trajectory`
fills the bounded queue until the window is reached, then `_apply_transforms`
pops one frame to fix the output shape (lines 222-225) and runs the render
loop.  Returns `none` when the run raises before producing a result record
(empty source, or `frame_queue.popleft()` on an empty queue). -/
def stabilizeModel {α : Type} (w : Nat) (src : List α) : Option (StabResult α) :=
  match src with
  | [] => none
  | f1 :: rest =>
    let ir := initLoop w rest (dpush w [] f1) [] 0
    match ir.queue with
    | [] => none
    | shapeF :: qt =>
      let r := streamLoop w ir.rem qt ir.ids
      some ⟨r.emitted, shapeF, 1 + (rest.length - ir.rem.length) + r.reads,
            ir.est + r.est, r.ok⟩

/-- Dispatch of `stabilize` on `use_stored_transforms` (lines 379-386): with the
flag set, `_init_trajectory` is skipped, so `_apply_transforms` immediately
raises `IndexError` popping the empty frame queue (line 222); with the flag
clear, the full analysis plus render pipeline runs. -/
def stabilizeFlow {α : Type} (useStoredTransforms : Bool) (w : Nat) (src : List α) :
    Option (StabResult α) :=
  if useStoredTransforms then none
  else stabilizeModel w src

/-- `apply_transforms` (lines 308-312): it calls `self.stabilize` passing
`use_stored_transforms=False`. -/
def apply_transforms_model {α : Type} (w : Nat) (src : List α) : Option (StabResult α) :=
  stabilizeFlow false w src

/-- Number of source frames already read when `_apply_transforms` performs its
border-type validation: in the default `stabilize` flow, `_init_trajectory`
(line 380) runs before `_apply_transforms` (line 384), reading the first frame
(line 152) plus one frame per estimator call of its loop. -/
def framesReadBeforeBorderCheck {α : Type} (w : Nat) (src : List α) : Nat :=
  match src with
  | [] => 0
  | f1 :: rest => 1 + (initLoop w rest (dpush w [] f1) [] 0).est

/-! Helper lemmas about the analysis accumulator. -/

theorem lastOr_concat (l : List Vec3) (x : Vec3) : lastOr (l ++ [x]) = x := by
  simp [lastOr, List.getLast?_concat]

theorem gen_next_some_raw (st : AnalysisState) (d : Vec3) :
    (gen_next_raw_transform st (some d)).raw = st.raw ++ [d] := rfl

theorem gen_next_some_traj (st : AnalysisState) (d : Vec3) :
    (gen_next_raw_transform st (some d)).traj = st.traj ++ [lastOr st.traj + d] := by
  unfold gen_next_raw_transform
  cases h : st.traj.getLast? with
  | none => simp [lastOr, h]
  | some t => simp [lastOr, h]

theorem gen_next_none_eq (st : AnalysisState) :
    gen_next_raw_transform st none = gen_next_raw_transform st (some 0) := rfl

theorem runAnalysis_nil (st : AnalysisState) : runAnalysis st [] = st := rfl

theorem runAnalysis_cons (st : AnalysisState) (d : Vec3) (ds : List Vec3) :
    runAnalysis st (d :: ds) = runAnalysis (gen_next_raw_transform st (some d)) ds := rfl

theorem runAnalysis_raw (ds : List Vec3) :
    ∀ st : AnalysisState, (runAnalysis st ds).raw = st.raw ++ ds := by
  induction ds with
  | nil => intro st; simp [runAnalysis_nil]
  | cons d ds ih =>
    intro st
    rw [runAnalysis_cons, ih, gen_next_some_raw]
    simp

theorem runAnalysisFits_traj_length (fits : List (Option Vec3)) :
    ∀ st : AnalysisState, (runAnalysisFits st fits).traj.length = st.traj.length + fits.length := by
  induction fits with
  | nil => intro st; simp [runAnalysisFits]
  | cons f fs ih =>
    intro st
    have h1 : runAnalysisFits st (f :: fs) = runAnalysisFits (gen_next_raw_transform st f) fs := rfl
    rw [h1, ih]
    have h2 : (gen_next_raw_transform st f).traj.length = st.traj.length + 1 := by
      simp [gen_next_raw_transform]
    rw [h2]
    simp [List.length_cons]
    omega

theorem runAnalysis_traj_append (ds : List Vec3) :
    ∀ st : AnalysisState,
      (runAnalysis st ds).traj = st.traj ++ (trajOf ds).map (fun v => lastOr st.traj + v) := by
  induction ds with
  | nil => intro st; simp [runAnalysis_nil, trajOf, initAnalysisState]
  | cons d ds ih =>
    intro st
    have hcons : trajOf (d :: ds) = [d] ++ (trajOf ds).map (fun v => d + v) := by
      show (runAnalysis initAnalysisState (d :: ds)).traj = _
      rw [runAnalysis_cons, ih]
      simp [gen_next_some_traj, initAnalysisState, lastOr]
    rw [runAnalysis_cons, ih, hcons, gen_next_some_traj, lastOr_concat]
    simp only [List.map_append, List.map_cons, List.map_nil, List.map_map, List.append_assoc]
    have hfun : ((fun v => lastOr st.traj + v) ∘ (fun v : Vec3 => d + v)) =
        (fun v : Vec3 => lastOr st.traj + d + v) := by
      funext v
      simp [add_assoc]
    rw [hfun]

theorem trajOf_cons (d : Vec3) (ds : List Vec3) :
    trajOf (d :: ds) = d :: (trajOf ds).map (fun v => d + v) := by
  show (runAnalysis initAnalysisState (d :: ds)).traj = _
  rw [runAnalysis_cons, runAnalysis_traj_append]
  simp [gen_next_some_traj, initAnalysisState, lastOr]

theorem trajOf_length (ds : List Vec3) : (trajOf ds).length = ds.length := by
  have := runAnalysisFits_traj_length (ds.map some) initAnalysisState
  simpa [trajOf, runAnalysis, initAnalysisState] using this

/-- C3: for every sequence of motion deltas, the accumulated trajectory has one
row per delta and satisfies `Trajectory[i] = sum of MotionDelta[0..i]`
componentwise and exactly, for every index `i`. -/
theorem trajectory_cumsum (deltas : List Vec3) (i : Nat) :
    (trajOf deltas).length = deltas.length ∧
    (trajOf deltas)[i]? =
      (if i < deltas.length then some ((deltas.take (i + 1)).sum) else none) := by
  refine ⟨trajOf_length deltas, ?_⟩
  induction deltas generalizing i with
  | nil => simp [trajOf, runAnalysis_nil, initAnalysisState]
  | cons d ds ih =>
    rw [trajOf_cons]
    cases i with
    | zero => simp
    | succ i =>
      simp only [List.getElem?_cons_succ, List.getElem?_map, ih]
      by_cases h : i < ds.length
      · simp [h, Nat.succ_lt_succ h, List.sum_cons]
      · simp [h, fun hh => h (Nat.lt_of_succ_lt_succ hh)]

/-- C6 counterexample: running `gen_transforms` twice in succession on the same
instance with the same one-delta source does not reproduce the trajectory
array of the first run, because the accumulator state is not reset. -/
theorem gen_transforms_not_idempotent :
    (gen_transforms_run (gen_transforms_run initAnalysisState [some ((1 : ℚ), (0 : ℚ), (0 : ℚ))] 1).1
        [some ((1 : ℚ), (0 : ℚ), (0 : ℚ))] 1).2.1 ≠
      (gen_transforms_run initAnalysisState [some ((1 : ℚ), (0 : ℚ), (0 : ℚ))] 1).2.1 := by
  decide

/-- C6 amended: a second `gen_transforms` run on the same instance does not
reset `_raw_transforms`/`_trajectory`, so its raw-transform array is the delta
stream twice over and its trajectory array is the first run's trajectory
followed by a copy of it offset by the first run's final position; the arrays
of the two runs are bit-identical only for an empty delta stream.  Identical
arrays require a fresh instance. -/
theorem gen_transforms_second_run_appends (deltas : List Vec3) (w : Nat) :
    (gen_transforms_run (gen_transforms_run initAnalysisState (deltas.map some) w).1
        (deltas.map some) w).2.1 =
      trajOf deltas ++ (trajOf deltas).map (fun v => lastOr (trajOf deltas) + v) ∧
    (gen_transforms_run (gen_transforms_run initAnalysisState (deltas.map some) w).1
        (deltas.map some) w).1.raw = deltas ++ deltas ∧
    (gen_transforms_run (gen_transforms_run initAnalysisState (deltas.map some) w).1
        (deltas.map some) w).2.1.length = 2 * deltas.length := by
  have h1 : (gen_transforms_run initAnalysisState (deltas.map some) w).1 =
      runAnalysis initAnalysisState deltas := rfl
  have h2 : (gen_transforms_run (runAnalysis initAnalysisState deltas) (deltas.map some) w).2.1 =
      (runAnalysis (runAnalysis initAnalysisState deltas) deltas).traj := rfl
  have h3 : (gen_transforms_run (runAnalysis initAnalysisState deltas) (deltas.map some) w).1.raw =
      (runAnalysis (runAnalysis initAnalysisState deltas) deltas).raw := rfl
  have htraj : (runAnalysis (runAnalysis initAnalysisState deltas) deltas).traj =
      trajOf deltas ++ (trajOf deltas).map (fun v => lastOr (trajOf deltas) + v) :=
    runAnalysis_traj_append deltas (runAnalysis initAnalysisState deltas)
  refine ⟨by rw [h1, h2, htraj], ?_, ?_⟩
  · rw [h1, h3, runAnalysis_raw, runAnalysis_raw]
    simp [initAnalysisState]
  · rw [h1, h2, htraj]
    simp [trajOf_length]
    omega

/-- C7: a frame pair whose rigid-transform fit fails (or has too few matched
points) contributes the delta `(0, 0, 0)`; the analysis is total (it continues
without raising, one trajectory row per pair) and the accumulated trajectory is
the same as if an explicit zero delta had been estimated, so subsequent real
deltas accumulate unaffected. -/
theorem fit_failure_zero_delta (st : AnalysisState) (a b : List (Option Vec3)) :
    (gen_next_raw_transform st none).raw = st.raw ++ [(0 : Vec3)] ∧
    runAnalysisFits initAnalysisState (a ++ none :: b) =
      runAnalysisFits initAnalysisState (a ++ some (0 : Vec3) :: b) ∧
    (runAnalysisFits initAnalysisState (a ++ none :: b)).traj.length =
      a.length + 1 + b.length := by
  refine ⟨rfl, ?_, ?_⟩
  · show (a ++ none :: b).foldl gen_next_raw_transform initAnalysisState =
      (a ++ some (0 : Vec3) :: b).foldl gen_next_raw_transform initAnalysisState
    rw [List.foldl_append, List.foldl_append, List.foldl_cons, List.foldl_cons,
      gen_next_none_eq]
  · rw [runAnalysisFits_traj_length]
    simp [initAnalysisState]
    omega

/-- C7 witness at a concrete failing middle pair. -/
theorem fit_failure_zero_delta_witness :
    (gen_next_raw_transform initAnalysisState none).raw = [] ++ [(0 : Vec3)] ∧
    runAnalysisFits initAnalysisState
        ([some ((1 : ℚ), (0 : ℚ), (0 : ℚ))] ++ none :: [some ((0 : ℚ), (2 : ℚ), (0 : ℚ))]) =
      runAnalysisFits initAnalysisState
        ([some ((1 : ℚ), (0 : ℚ), (0 : ℚ))] ++ some (0 : Vec3) ::
          [some ((0 : ℚ), (2 : ℚ), (0 : ℚ))]) ∧
    (runAnalysisFits initAnalysisState
        ([some ((1 : ℚ), (0 : ℚ), (0 : ℚ))] ++ none ::
          [some ((0 : ℚ), (2 : ℚ), (0 : ℚ))])).traj.length = 1 + 1 + 1 :=
  fit_failure_zero_delta initAnalysisState [some ((1 : ℚ), (0 : ℚ), (0 : ℚ))]
    [some ((0 : ℚ), (2 : ℚ), (0 : ℚ))]

/-- C2: the compensation transform at every index `i` equals the raw motion
delta at `i` plus the difference between the smoothed and the raw trajectory at
`i`, componentwise and exactly; `_apply_transforms` applies exactly row
`self.transforms[i]` when rendering the frame popped with queue index `i`
(lines 241-254). -/
theorem transforms_formula (st : AnalysisState) (w i : Nat) (r s t : Vec3)
    (hr : st.raw[i]? = some r)
    (hs : (bfill_rolling_mean st.traj w)[i]? = some s)
    (ht : st.traj[i]? = some t) :
    (gen_transforms_arrays st w).2.2[i]? = some (r + (s - t)) := by
  have hinner :
      (List.zipWith (fun s t => s - t) (bfill_rolling_mean st.traj w) st.traj)[i]? =
        some (s - t) := by
    rw [List.getElem?_zipWith, hs, ht]
  show (List.zipWith (fun r c => r + c) st.raw
      (List.zipWith (fun s t => s - t) (bfill_rolling_mean st.traj w) st.traj))[i]? = _
  rw [List.getElem?_zipWith, hr, hinner]

/-! Helper lemmas about backward fill and rolling means. -/

theorem bfill_length {β : Type} : ∀ l : List (Option β), (bfill l).length = l.length
  | [] => rfl
  | some a :: t => by simp [bfill, bfill_length t]
  | none :: t => by simp [bfill, bfill_length t]

theorem bfill_getElem_some {β : Type} (l : List (Option β)) :
    ∀ (i : Nat) (a : β), l[i]? = some (some a) → (bfill l)[i]? = some (some a) := by
  induction l with
  | nil => intro i a h; simp at h
  | cons o t ih =>
    intro i a h
    cases o with
    | some b =>
      cases i with
      | zero => simp_all [bfill]
      | succ i =>
        simp only [List.getElem?_cons_succ] at h
        simp only [bfill, List.getElem?_cons_succ]
        exact ih i a h
    | none =>
      cases i with
      | zero => simp at h
      | succ i =>
        simp only [List.getElem?_cons_succ] at h
        simp only [bfill, List.getElem?_cons_succ]
        exact ih i a h

theorem bfill_getElem_none {β : Type} (l : List (Option β)) :
    ∀ i : Nat, l[i]? = some none →
      (bfill l)[i]? = some (firstSome (l.drop (i + 1))) := by
  induction l with
  | nil => intro i h; simp at h
  | cons o t ih =>
    intro i h
    cases o with
    | some b =>
      cases i with
      | zero => simp at h
      | succ i =>
        simp only [List.getElem?_cons_succ] at h
        simp only [bfill, List.getElem?_cons_succ, List.drop_succ_cons]
        exact ih i h
    | none =>
      cases i with
      | zero => simp [bfill]
      | succ i =>
        simp only [List.getElem?_cons_succ] at h
        simp only [bfill, List.getElem?_cons_succ, List.drop_succ_cons]
        exact ih i h

theorem range'_drop : ∀ (k a n : Nat), (List.range' a n).drop k = List.range' (a + k) (n - k) := by
  intro k
  induction k with
  | zero => intro a n; simp
  | succ k ih =>
    intro a n
    cases n with
    | zero => simp [List.range']
    | succ n =>
      rw [List.range'_succ, List.drop_succ_cons, ih]
      have h1 : a + 1 + k = a + (k + 1) := by omega
      have h2 : n - k = n + 1 - (k + 1) := by omega
      rw [h1, h2]

theorem rollingMeans_getElem (T : List Vec3) (w i : Nat) (hi : i < T.length) :
    (rollingMeans T w)[i]? =
      some (if w - 1 ≤ i then some (windowMean T w i) else none) := by
  unfold rollingMeans
  rw [List.getElem?_map, List.getElem?_range hi]
  rfl

theorem rollingMeans_drop (T : List Vec3) (w k : Nat) :
    (rollingMeans T w).drop k =
      (List.range' k (T.length - k)).map fun j =>
        if w - 1 ≤ j then some (windowMean T w j) else none := by
  unfold rollingMeans
  rw [← List.map_drop, List.range_eq_range', range'_drop]
  rw [Nat.zero_add]

theorem firstSome_rollingMeans (T : List Vec3) (w : Nat) :
    ∀ (m a : Nat), a + m = T.length → a ≤ w - 1 → w - 1 < T.length →
      firstSome ((List.range' a m).map fun j =>
          if w - 1 ≤ j then some (windowMean T w j) else none) =
        some (windowMean T w (w - 1)) := by
  intro m
  induction m with
  | zero => intro a h1 h2 h3; omega
  | succ m ih =>
    intro a h1 h2 h3
    rw [List.range'_succ]
    simp only [List.map_cons]
    by_cases hcase : w - 1 ≤ a
    · have ha : a = w - 1 := by omega
      rw [if_pos hcase]
      show firstSome (some (windowMean T w a) :: _) = _
      rw [ha]
      simp [firstSome]
    · rw [if_neg hcase]
      show firstSome (none :: _) = _
      rw [show firstSome (none :: ((List.range' (a + 1) m).map fun j =>
        if w - 1 ≤ j then some (windowMean T w j) else none)) = firstSome
        ((List.range' (a + 1) m).map fun j =>
          if w - 1 ≤ j then some (windowMean T w j) else none) from rfl]
      exact ih (a + 1) (by omega) (by omega) h3

/-- C1: for a window `w >= 1` and a trajectory of length `>= w`, the smoothed
trajectory has the same length as the input, equals the trailing mean
`average(T[i-w+1 .. i])` at every index `i >= w - 1`, and is back-filled with
the value at index `w - 1` at every index `i < w - 1`. -/
theorem bfill_rolling_mean_spec (T : List Vec3) (w i : Nat)
    (hw : 1 ≤ w) (hlen : w ≤ T.length) (hi : i < T.length) :
    (bfill_rolling_mean T w).length = T.length ∧
    (w - 1 ≤ i → (bfill_rolling_mean T w)[i]? = some (windowMean T w i)) ∧
    (i < w - 1 → (bfill_rolling_mean T w)[i]? = (bfill_rolling_mean T w)[w - 1]?) := by
  have hwlen : w - 1 < T.length := by omega
  have hmean : ∀ j : Nat, w - 1 ≤ j → j < T.length →
      (bfill_rolling_mean T w)[j]? = some (windowMean T w j) := by
    intro j hj hjlen
    unfold bfill_rolling_mean
    rw [List.getElem?_map]
    rw [bfill_getElem_some (rollingMeans T w) j (windowMean T w j)
      (by rw [rollingMeans_getElem T w j hjlen, if_pos hj])]
    rfl
  refine ⟨?_, fun hge => hmean i hge hi, fun hlt => ?_⟩
  · unfold bfill_rolling_mean rollingMeans
    rw [List.length_map, bfill_length, List.length_map, List.length_range]
  · have hnone : (rollingMeans T w)[i]? = some none := by
      rw [rollingMeans_getElem T w i hi, if_neg (by omega)]
    have hL : (bfill_rolling_mean T w)[i]? = some (windowMean T w (w - 1)) := by
      unfold bfill_rolling_mean
      rw [List.getElem?_map, bfill_getElem_none (rollingMeans T w) i hnone,
        rollingMeans_drop, firstSome_rollingMeans T w (T.length - (i + 1)) (i + 1)
          (by omega) (by omega) hwlen]
      rfl
    rw [hL, hmean (w - 1) (by omega) hwlen]

/-- C1 witness at a concrete three-row trajectory with window 2 and a
back-filled index. -/
theorem bfill_rolling_mean_spec_witness :
    (1 ≤ 2 ∧ 2 ≤ ([((1 : ℚ), (0 : ℚ), (0 : ℚ)), ((2 : ℚ), (0 : ℚ), (0 : ℚ)),
        ((4 : ℚ), (0 : ℚ), (0 : ℚ))] : List Vec3).length ∧
      0 < ([((1 : ℚ), (0 : ℚ), (0 : ℚ)), ((2 : ℚ), (0 : ℚ), (0 : ℚ)),
        ((4 : ℚ), (0 : ℚ), (0 : ℚ))] : List Vec3).length) ∧
    ((bfill_rolling_mean [((1 : ℚ), (0 : ℚ), (0 : ℚ)), ((2 : ℚ), (0 : ℚ), (0 : ℚ)),
        ((4 : ℚ), (0 : ℚ), (0 : ℚ))] 2).length =
      ([((1 : ℚ), (0 : ℚ), (0 : ℚ)), ((2 : ℚ), (0 : ℚ), (0 : ℚ)),
        ((4 : ℚ), (0 : ℚ), (0 : ℚ))] : List Vec3).length ∧
    (2 - 1 ≤ 0 →
      (bfill_rolling_mean [((1 : ℚ), (0 : ℚ), (0 : ℚ)), ((2 : ℚ), (0 : ℚ), (0 : ℚ)),
        ((4 : ℚ), (0 : ℚ), (0 : ℚ))] 2)[0]? =
        some (windowMean [((1 : ℚ), (0 : ℚ), (0 : ℚ)), ((2 : ℚ), (0 : ℚ), (0 : ℚ)),
          ((4 : ℚ), (0 : ℚ), (0 : ℚ))] 2 0)) ∧
    (0 < 2 - 1 →
      (bfill_rolling_mean [((1 : ℚ), (0 : ℚ), (0 : ℚ)), ((2 : ℚ), (0 : ℚ), (0 : ℚ)),
        ((4 : ℚ), (0 : ℚ), (0 : ℚ))] 2)[0]? =
        (bfill_rolling_mean [((1 : ℚ), (0 : ℚ), (0 : ℚ)), ((2 : ℚ), (0 : ℚ), (0 : ℚ)),
          ((4 : ℚ), (0 : ℚ), (0 : ℚ))] 2)[2 - 1]?)) :=
  ⟨by decide,
    bfill_rolling_mean_spec [((1 : ℚ), (0 : ℚ), (0 : ℚ)), ((2 : ℚ), (0 : ℚ), (0 : ℚ)),
      ((4 : ℚ), (0 : ℚ), (0 : ℚ))] 2 0 (by decide) (by decide) (by decide)⟩

/-- C2 witness at a concrete one-delta analysis state with window 1. -/
theorem transforms_formula_witness :
    ((⟨[((1 : ℚ), (0 : ℚ), (0 : ℚ))], [((1 : ℚ), (0 : ℚ), (0 : ℚ))]⟩ :
        AnalysisState).raw[0]? = some ((1 : ℚ), (0 : ℚ), (0 : ℚ)) ∧
      (bfill_rolling_mean (⟨[((1 : ℚ), (0 : ℚ), (0 : ℚ))],
          [((1 : ℚ), (0 : ℚ), (0 : ℚ))]⟩ : AnalysisState).traj 1)[0]? =
        some ((1 : ℚ), (0 : ℚ), (0 : ℚ)) ∧
      (⟨[((1 : ℚ), (0 : ℚ), (0 : ℚ))], [((1 : ℚ), (0 : ℚ), (0 : ℚ))]⟩ :
        AnalysisState).traj[0]? = some ((1 : ℚ), (0 : ℚ), (0 : ℚ))) ∧
    (gen_transforms_arrays (⟨[((1 : ℚ), (0 : ℚ), (0 : ℚ))],
        [((1 : ℚ), (0 : ℚ), (0 : ℚ))]⟩ : AnalysisState) 1).2.2[0]? =
      some ((((1 : ℚ), (0 : ℚ), (0 : ℚ)) : Vec3) +
        ((((1 : ℚ), (0 : ℚ), (0 : ℚ)) : Vec3) - (((1 : ℚ), (0 : ℚ), (0 : ℚ)) : Vec3))) :=
  ⟨⟨by decide,
    by simp [bfill_rolling_mean, rollingMeans, bfill, firstSome, windowMean, windowSum,
      List.range_succ],
    by decide⟩,
    transforms_formula ⟨[((1 : ℚ), (0 : ℚ), (0 : ℚ))], [((1 : ℚ), (0 : ℚ), (0 : ℚ))]⟩ 1 0
      ((1 : ℚ), (0 : ℚ), (0 : ℚ)) ((1 : ℚ), (0 : ℚ), (0 : ℚ)) ((1 : ℚ), (0 : ℚ), (0 : ℚ))
      (by decide)
      (by simp [bfill_rolling_mean, rollingMeans, bfill, firstSome, windowMean, windowSum,
        List.range_succ])
      (by decide)⟩

/-- C8 counterexample: with layering configured and additive layering, the
frame with queue index 1 — the second eligible output frame — is emitted
unlayered (value 2), not layered onto the first output as the claim requires
(which would give 3). -/
theorem layering_skips_second_frame :
    (layerLoop (fun f b => f + b) (100 : ℕ) [(0, 1), (1, 2)])[1]? = some 2 ∧
    (layerLoop (fun f b => f + b) (100 : ℕ) [(0, 1), (1, 2)])[1]? ≠ some 3 := by
  constructor
  · rfl
  · decide

theorem layerLoop_range' {α : Type} (layer : α → α → α) :
    ∀ (ws : List α) (a : Nat) (bg : α), 2 ≤ a →
      layerLoop layer bg ((List.range' a ws.length).zip ws) = layerChain layer bg ws := by
  intro ws
  induction ws with
  | nil => intro a bg ha; simp [layerLoop, layerChain, List.range']
  | cons t rest ih =>
    intro a bg ha
    simp only [List.length_cons, List.range'_succ, List.zip_cons_cons]
    simp only [layerLoop, layerChain]
    rw [if_pos (by omega)]
    exact congrArg (List.cons (layer t bg)) (ih (a + 1) (layer t bg) (by omega))

theorem layerLoop_of_range' {α : Type} (layer : α → α → α) (p0 : α) (a : Nat)
    (ws : List α) :
    layerLoop layer p0 ((List.range' a ws.length).zip ws) =
      ws.take (2 - a) ++
        layerChain layer ((ws.take (2 - a)).getLastD p0) (ws.drop (2 - a)) := by
  match a with
  | 0 =>
    match ws with
    | [] => simp [layerLoop, layerChain, List.range']
    | [w1] =>
      show layerLoop layer p0 [(0, w1)] = _
      simp [layerLoop, layerChain]
    | w1 :: w2 :: ws2 =>
      show layerLoop layer p0
          ((0, w1) :: (1, w2) :: (List.range' 2 ws2.length).zip ws2) = _
      simp only [layerLoop]
      rw [if_neg (by omega), if_neg (by omega)]
      rw [layerLoop_range' layer ws2 2 w2 (by omega)]
      simp [List.getLastD_cons]
  | 1 =>
    match ws with
    | [] => simp [layerLoop, layerChain, List.range']
    | w1 :: ws1 =>
      show layerLoop layer p0 ((1, w1) :: (List.range' 2 ws1.length).zip ws1) = _
      simp only [layerLoop]
      rw [if_neg (by omega)]
      rw [layerLoop_range' layer ws1 2 w1 (by omega)]
      simp
  | m + 2 =>
    rw [layerLoop_range' layer ws (m + 2) p0 (by omega)]
    simp

/-- C9: for `k > 0` (and a frame large enough for the crop, `2k <= d`), a
negative border size is internally a 100-pixel border cropped back by
`100 + |size|` per side; rendering with `border_size = k` nets `+2k` per
dimension and with `border_size = -k` nets `-2k`, so the two outputs differ by
`4k` pixels per dimension and the negative case is strictly smaller than the
`border_size = 0` output. -/
theorem border_size_sign (d k : Int) (hk : 0 < k) (hd : 2 * k ≤ d) :
    border_setup_size (-k) = (100, 100 + k) ∧
    output_dim d k = d + 2 * k ∧
    output_dim d (-k) = d - 2 * k ∧
    output_dim d k - output_dim d (-k) = 4 * k ∧
    output_dim d (-k) < output_dim d 0 := by
  have hsetupneg : border_setup_size (-k) = (100, 100 + k) := by
    unfold border_setup_size
    rw [if_pos (by omega)]
    rw [Int.natAbs_neg, Int.natAbs_of_nonneg hk.le]
  have hpos : output_dim d k = d + 2 * k := by
    unfold output_dim border_setup_size
    rw [if_neg (by omega)]
    show max (d + 4 * k - 2 * (k + 0)) 0 = d + 2 * k
    omega
  have hneg : output_dim d (-k) = d - 2 * k := by
    unfold output_dim
    rw [hsetupneg]
    show max (d + 4 * 100 - 2 * (100 + (100 + k))) 0 = d - 2 * k
    omega
  have hzero : output_dim d 0 = d := by
    unfold output_dim border_setup_size
    rw [if_neg (by omega)]
    show max (d + 4 * 0 - 2 * (0 + 0)) 0 = d
    omega
  refine ⟨hsetupneg, hpos, hneg, ?_, ?_⟩
  · rw [hpos, hneg]; omega
  · rw [hneg, hzero]; omega

/-- C9 witness at a 10-pixel dimension with k = 2. -/
theorem border_size_sign_witness :
    ((0 : Int) < 2 ∧ (2 : Int) * 2 ≤ 10) ∧
    (border_setup_size (-2) = (100, 100 + 2) ∧
      output_dim 10 2 = 10 + 2 * 2 ∧
      output_dim 10 (-2) = 10 - 2 * 2 ∧
      output_dim 10 2 - output_dim 10 (-2) = 4 * 2 ∧
      output_dim 10 (-2) < output_dim 10 0) :=
  ⟨⟨by decide, by decide⟩, border_size_sign 10 2 (by decide) (by decide)⟩

/-- C4 counterexample: the border type "trail", although in the accepted list,
makes `_apply_transforms` raise `KeyError` at the `border_modes` lookup instead
of being accepted; moreover in the default `stabilize` flow the border check
only runs after `_init_trajectory` has already read 3 frames of a 3-frame
source, not before any frame is read. -/
theorem border_trail_counterexample :
    border_mode_setup "trail" = Except.error PyError.keyError ∧
    framesReadBeforeBorderCheck 2 ([0, 1, 2] : List ℕ) = 3 := by
  constructor
  · rfl
  · rfl

/-- C4 amended: `stabilize` raises the configuration `ValueError` exactly when
the border type is not one of black, reflect, replicate, trail; of those four,
"trail" passes validation but then raises `KeyError` at the border-mode lookup;
and with the default `stabilize` flow the check runs only after the analysis
phase has read at least one frame from the source, not before any frame is
read. -/
theorem border_validation_behavior {α : Type} (bt : String) (w : Nat) (src : List α)
    (hsrc : src ≠ []) :
    (border_mode_setup bt = Except.error PyError.valueError ↔
      bt ∉ valid_border_types) ∧
    border_mode_setup "trail" = Except.error PyError.keyError ∧
    1 ≤ framesReadBeforeBorderCheck w src := by
  refine ⟨?_, rfl, ?_⟩
  · by_cases hmem : bt ∈ valid_border_types
    · simp only [border_mode_setup, if_pos hmem]
      constructor
      · intro h
        intro _
        rcases hl : border_modes.lookup bt with _ | m
        · rw [hl] at h
          simp at h
        · rw [hl] at h
          simp at h
      · intro h
        exact absurd hmem h
    · have hval : border_mode_setup bt = Except.error PyError.valueError := by
        unfold border_mode_setup
        rw [if_neg hmem]
      rw [hval]
      simp [hmem]
  · cases src with
    | nil => exact absurd rfl hsrc
    | cons f rest =>
      show 1 ≤ 1 + (initLoop w rest (dpush w [] f) [] 0).est
      omega

/-- C4 witness at a concrete unknown border type and two-frame source. -/
theorem border_validation_behavior_witness :
    (([0, 1] : List ℕ) ≠ []) ∧
    ((border_mode_setup "wrap" = Except.error PyError.valueError ↔
        "wrap" ∉ valid_border_types) ∧
      border_mode_setup "trail" = Except.error PyError.keyError ∧
      1 ≤ framesReadBeforeBorderCheck 2 ([0, 1] : List ℕ)) :=
  ⟨by decide, border_validation_behavior "wrap" 2 [0, 1] (by decide)⟩

/-! Helper lemmas about the bounded queues and the pipeline loops. -/

theorem dpush_small {β : Type} (w : Nat) (l : List β) (x : β) (h : l.length + 1 ≤ w) :
    dpush w l x = l ++ [x] := by
  unfold dpush
  rw [show l.length + 1 - w = 0 from by omega, List.drop_zero]

theorem dpush_full {β : Type} (w : Nat) (l : List β) (x : β) (h : l.length = w) :
    dpush w l x = (l ++ [x]).drop 1 := by
  unfold dpush
  rw [show l.length + 1 - w = 1 from by omega]

theorem range'_zero_concat (k : Nat) : List.range' 0 k ++ [k] = List.range' 0 (k + 1) := by
  rw [List.range'_concat]
  simp

theorem range'_eq_cons (a n : Nat) (h : 1 ≤ n) :
    List.range' a n = a :: List.range' (a + 1) (n - 1) := by
  cases n with
  | zero => omega
  | succ m =>
    rw [List.range'_succ]
    simp

theorem getLast?_range' (n : Nat) :
    ∀ a : Nat, 1 ≤ n → (List.range' a n).getLast? = some (a + n - 1) := by
  induction n with
  | zero => intro a h; omega
  | succ m ih =>
    intro a _
    rw [List.range'_concat, List.getLast?_concat]
    congr 1
    omega

theorem initLoop_spec {α : Type} (w : Nat) (hw : 2 ≤ w) :
    ∀ (src : List α) (k : Nat) (q : List α) (est : Nat),
      k + 1 ≤ w → q.length = k + 1 →
      initLoop w src q (List.range' 0 k) est =
        if src.length + k + 1 ≤ w then
          ⟨q ++ src, List.range' 0 (k + src.length), est + src.length, []⟩
        else
          ⟨(q ++ src.take (w - k)).drop 1, List.range' 0 w, est + (w - k),
            src.drop (w - k)⟩ := by
  intro src
  induction src with
  | nil =>
    intro k q est hk hq
    rw [if_pos (by simp; omega)]
    simp [initLoop]
  | cons f rest ih =>
    intro k q est hk hq
    have hj : (match (List.range' 0 k).getLast? with
        | none => 0
        | some m => m + 1) = k := by
      cases k with
      | zero => rfl
      | succ m =>
        rw [getLast?_range' (m + 1) 0 (by omega)]
        simp
    simp only [initLoop]
    rw [hj]
    by_cases hbreak : w - 1 ≤ k
    · rw [if_pos hbreak, if_neg (by simp; omega)]
      have hq2 : dpush w q f = (q ++ [f]).drop 1 := dpush_full w q f (by omega)
      have hids2 : dpush w (List.range' 0 k) k = List.range' 0 w := by
        rw [dpush_small w _ k (by rw [List.length_range']; omega), range'_zero_concat,
          show k + 1 = w from by omega]
      rw [hq2, hids2, show w - k = 1 from by omega]
      simp
    · rw [if_neg hbreak]
      have hq2 : dpush w q f = q ++ [f] := dpush_small w q f (by omega)
      have hids2 : dpush w (List.range' 0 k) k = List.range' 0 (k + 1) := by
        rw [dpush_small w _ k (by rw [List.length_range']; omega), range'_zero_concat]
      rw [hq2, hids2, ih (k + 1) (q ++ [f]) (est + 1) (by omega) (by simp [hq])]
      simp only [List.length_cons]
      by_cases hfit : rest.length + (k + 1) + 1 ≤ w
      · rw [if_pos hfit, if_pos (by omega)]
        congr 1
        · simp
        · congr 1
          omega
        · omega
      · rw [if_neg hfit, if_neg (by omega)]
        have htk : w - k = (w - (k + 1)) + 1 := by omega
        rw [htk, List.take_succ_cons, List.drop_succ_cons]
        congr 1
        · simp
        · omega

theorem drainLoop_false {α : Type} :
    ∀ (q : List α) (ids : List Nat), q.length ≤ ids.length →
      drainLoop q ids false = (ids.zip q, true) := by
  intro q
  induction q with
  | nil => intro ids h; simp [drainLoop]
  | cons x qt ih =>
    intro ids h
    cases ids with
    | nil => simp at h
    | cons i it =>
      have hrec := ih it (by simpa using h)
      simp [drainLoop, hrec]

theorem drainLoop_true {α : Type} (x : α) (qt : List α) (ids : List Nat)
    (h : qt.length + 1 ≤ ids.length) :
    drainLoop (x :: qt) ids true = (ids.zip (x :: qt), true) := by
  cases ids with
  | nil => simp at h
  | cons i it =>
    have hrec := drainLoop_false qt it (by simpa using h)
    simp [drainLoop, hrec]


theorem range'_concat_self (a k : Nat) : List.range' a k ++ [a + k] = List.range' a (k + 1) := by
  rw [List.range'_concat]
  simp

theorem streamLoop_steady {α : Type} (w : Nat) (hw : 2 ≤ w) :
    ∀ (src : List α) (q : List α) (a : Nat), q.length = w - 1 →
      streamLoop w src q (List.range' a (w - 1)) =
        ⟨(List.range' a (w - 1 + src.length)).zip (q ++ src), src.length,
          src.length, true⟩ := by
  intro src
  induction src with
  | nil =>
    intro q a hq
    cases q with
    | nil =>
      simp at hq
      omega
    | cons x qt =>
      simp at hq
      have hd := drainLoop_true x qt (List.range' a (w - 1))
        (by rw [List.length_range']; omega)
      simp [streamLoop, hd]
  | cons f rest ih =>
    intro q a hq
    cases q with
    | nil =>
      simp at hq
      omega
    | cons c qt =>
      have hqt : qt.length = w - 2 := by
        simp at hq
        omega
      have hcons : streamLoop w (f :: rest) (c :: qt) (List.range' a (w - 1)) =
          ⟨(a, c) :: (streamLoop w rest (qt ++ [f]) (List.range' (a + 1) (w - 1))).emitted,
            (streamLoop w rest (qt ++ [f]) (List.range' (a + 1) (w - 1))).reads + 1,
            (streamLoop w rest (qt ++ [f]) (List.range' (a + 1) (w - 1))).est + 1,
            (streamLoop w rest (qt ++ [f]) (List.range' (a + 1) (w - 1))).ok⟩ := by
        simp only [streamLoop]
        rw [getLast?_range' (w - 1) a (by omega)]
        dsimp only
        rw [show a + (w - 1) - 1 + 1 = a + (w - 1) from by omega]
        rw [dpush_small w (c :: qt) f (by simp [hqt]; omega)]
        rw [dpush_small w (List.range' a (w - 1)) (a + (w - 1))
          (by rw [List.length_range']; omega)]
        rw [range'_concat_self, show w - 1 + 1 = w from by omega]
        rw [range'_eq_cons a w (by omega)]
        simp only [List.cons_append]
      rw [hcons, ih (qt ++ [f]) (a + 1) (by simp [hqt]; omega)]
      have hzip : (List.range' a (w - 1 + (f :: rest).length)).zip ((c :: qt) ++ f :: rest) =
          (a, c) :: (List.range' (a + 1) (w - 1 + rest.length)).zip ((qt ++ [f]) ++ rest) := by
        rw [range'_eq_cons a (w - 1 + (f :: rest).length) (by simp; omega)]
        simp only [List.cons_append, List.zip_cons_cons]
        rw [show w - 1 + (f :: rest).length - 1 = w - 1 + rest.length from by simp]
        rw [show qt ++ f :: rest = (qt ++ [f]) ++ rest from by simp]
      rw [hzip]
      simp

theorem streamLoop_over {α : Type} (w : Nat) (hw : 2 ≤ w) (q : List α) (rem : List α)
    (hq : q.length = w - 1) :
    (streamLoop w rem q (List.range' 0 w)).emitted.map Prod.snd = q ++ rem ∧
    (streamLoop w rem q (List.range' 0 w)).emitted.length = w - 1 + rem.length ∧
    (streamLoop w rem q (List.range' 0 w)).reads = rem.length ∧
    (streamLoop w rem q (List.range' 0 w)).est = rem.length ∧
    (streamLoop w rem q (List.range' 0 w)).ok = true := by
  cases rem with
  | nil =>
    cases q with
    | nil =>
      simp at hq
      omega
    | cons x qt =>
      simp at hq
      have hd := drainLoop_true x qt (List.range' 0 w) (by rw [List.length_range']; omega)
      have hs : streamLoop w [] (x :: qt) (List.range' 0 w) =
          ⟨(List.range' 0 w).zip (x :: qt), 0, 0, true⟩ := by
        simp [streamLoop, hd]
      rw [hs]
      refine ⟨?_, ?_, rfl, rfl, rfl⟩
      · rw [List.map_snd_zip (List.range' 0 w) (x :: qt)
          (by simp [List.length_range']; omega)]
        simp
      · rw [List.length_zip]
        simp
        omega
  | cons g rem2 =>
    cases q with
    | nil =>
      simp at hq
      omega
    | cons c qt =>
      have hqt : qt.length = w - 2 := by
        simp at hq
        omega
      have hstep : streamLoop w (g :: rem2) (c :: qt) (List.range' 0 w) =
          ⟨(1, c) :: (streamLoop w rem2 (qt ++ [g]) (List.range' 2 (w - 1))).emitted,
            (streamLoop w rem2 (qt ++ [g]) (List.range' 2 (w - 1))).reads + 1,
            (streamLoop w rem2 (qt ++ [g]) (List.range' 2 (w - 1))).est + 1,
            (streamLoop w rem2 (qt ++ [g]) (List.range' 2 (w - 1))).ok⟩ := by
        simp only [streamLoop]
        rw [getLast?_range' w 0 (by omega)]
        dsimp only
        rw [show 0 + w - 1 + 1 = w from by omega]
        rw [dpush_small w (c :: qt) g (by simp [hqt]; omega)]
        rw [dpush_full w (List.range' 0 w) w (by simp)]
        rw [range'_zero_concat, range'_eq_cons 0 (w + 1) (by omega)]
        simp only [List.drop_succ_cons, List.drop_zero]
        rw [show (0 : Nat) + 1 = 1 from rfl, show w + 1 - 1 = w from by omega]
        rw [range'_eq_cons 1 w (by omega)]
        simp only [List.cons_append]
      have hsteady := streamLoop_steady w hw rem2 (qt ++ [g]) 2 (by simp [hqt]; omega)
      rw [hstep, hsteady]
      refine ⟨?_, ?_, by simp, by simp, rfl⟩
      · simp only [List.map_cons]
        rw [List.map_snd_zip (List.range' 2 (w - 1 + rem2.length)) ((qt ++ [g]) ++ rem2)
          (by simp [List.length_range', hqt]; omega)]
        simp
      · simp only [List.length_cons, List.length_zip]
        simp [hqt]
        omega

theorem initLoop_top {α : Type} (w : Nat) (hw : 2 ≤ w) (f1 : α) (rest : List α) :
    initLoop w rest (dpush w [] f1) [] 0 =
      if rest.length + 1 ≤ w then
        ⟨f1 :: rest, List.range' 0 rest.length, rest.length, []⟩
      else ⟨rest.take w, List.range' 0 w, w, rest.drop w⟩ := by
  have h0 : dpush w [] f1 = [f1] := dpush_small w [] f1 (by simp; omega)
  rw [h0]
  have h1 := initLoop_spec w hw rest 0 [f1] 0 (by omega) (by simp)
  show initLoop w rest [f1] (List.range' 0 0) 0 = _
  rw [h1]
  by_cases hc : rest.length + 0 + 1 ≤ w
  · rw [if_pos hc, if_pos (by omega)]
    simp
  · rw [if_neg hc, if_neg (by omega)]
    simp

/-- C10 amended: for a window of at least 2 and a source of at least two
frames, `stabilize` reads every source frame; the first source frame is
consumed only to seed the detector state and is never warped or written; the
output shape is fixed by the first frame only when the source fits inside the
window (`n <= w`) — otherwise the window eviction discards the seed frame and
the second frame fixes the shape and is dropped as well; the frames emitted are
the source minus the first one (or first two), so strictly fewer frames are
emitted than read, and exactly one estimator call is made per consecutive frame
pair. -/
theorem stabilize_frame_accounting {α : Type} (src : List α) (w : Nat)
    (hw : 2 ≤ w) (hn : 2 ≤ src.length) :
    (stabilizeModel w src).map (fun r => r.framesRead) = some src.length ∧
    (stabilizeModel w src).map (fun r => r.emitted.map Prod.snd) =
      some (if src.length ≤ w then src.drop 1 else src.drop 2) ∧
    (stabilizeModel w src).map (fun r => r.shapeFrame) =
      (if src.length ≤ w then src[0]? else src[1]?) ∧
    (stabilizeModel w src).map (fun r => r.emitted.length) =
      some (if src.length ≤ w then src.length - 1 else src.length - 2) ∧
    (if src.length ≤ w then src.length - 1 else src.length - 2) < src.length ∧
    (stabilizeModel w src).map (fun r => r.estCalls) = some (src.length - 1) ∧
    (stabilizeModel w src).map (fun r => r.ok) = some true := by
  obtain ⟨f1, rest, rfl⟩ : ∃ f1 rest, src = f1 :: rest := by
    cases src with
    | nil => simp at hn
    | cons a l => exact ⟨a, l, rfl⟩
  obtain ⟨b, rest2, rfl⟩ : ∃ b rest2, rest = b :: rest2 := by
    cases rest with
    | nil => simp at hn
    | cons a l => exact ⟨a, l, rfl⟩
  obtain ⟨v, rfl⟩ : ∃ v, w = v + 2 := ⟨w - 2, by omega⟩
  by_cases hsmall : (b :: rest2).length + 1 ≤ v + 2
  · have hinit := initLoop_top (v + 2) (by omega) f1 (b :: rest2)
    rw [if_pos hsmall] at hinit
    have hd := drainLoop_true b rest2 (List.range' 0 (rest2.length + 1)) (by simp)
    have hs : streamLoop (v + 2) [] (b :: rest2) (List.range' 0 (b :: rest2).length) =
        ⟨(List.range' 0 (rest2.length + 1)).zip (b :: rest2), 0, 0, true⟩ := by
      simp [streamLoop, hd]
    have hcond : (f1 :: b :: rest2).length ≤ v + 2 := by
      simp at hsmall ⊢
      omega
    have hsnd := List.map_snd_zip (List.range' 0 (rest2.length + 1)) (b :: rest2)
      (by simp)
    simp only [stabilizeModel, hinit]
    rw [hs]
    simp only [if_pos hcond]
    refine ⟨?_, ?_, ?_, ?_, ?_, ?_, ?_⟩
    · simp
      omega
    · simp [hsnd]
    · simp
    · simp [List.length_zip]
    · simp
    · simp
    · simp
  · have hlen : v + 1 ≤ rest2.length := by
      simp at hsmall
      omega
    have hinit := initLoop_top (v + 2) (by omega) f1 (b :: rest2)
    rw [if_neg hsmall] at hinit
    have htake : (b :: rest2).take (v + 2) = b :: rest2.take (v + 1) := rfl
    have hdrop : (b :: rest2).drop (v + 2) = rest2.drop (v + 1) := rfl
    rw [htake, hdrop] at hinit
    have hover := streamLoop_over (v + 2) (by omega) (rest2.take (v + 1))
      (rest2.drop (v + 1)) (by simp [List.length_take]; omega)
    obtain ⟨ho1, ho2, ho3, ho4, ho5⟩ := hover
    have hcond : ¬ ((f1 :: b :: rest2).length ≤ v + 2) := by
      simp at hsmall ⊢
      omega
    simp only [stabilizeModel, hinit]
    simp only [if_neg hcond]
    refine ⟨?_, ?_, ?_, ?_, ?_, ?_, ?_⟩
    · simp [ho3, List.length_drop]
      omega
    · simp [ho1, List.take_append_drop]
    · simp
    · simp [ho2, List.length_drop]
      omega
    · simp
      omega
    · simp [ho4, List.length_drop]
      omega
    · simp [ho5]

/-- C10 counterexample: with window 2 and a three-frame source the output
shape is fixed by the second source frame (20), not by the first (10): the
seed frame is evicted from the bounded queue before `_apply_transforms` pops
the shape frame. -/
theorem shape_frame_not_first :
    (stabilizeModel 2 ([10, 20, 30] : List Nat)).map (fun r => r.shapeFrame) = some 20 ∧
    (stabilizeModel 2 ([10, 20, 30] : List Nat)).map (fun r => r.shapeFrame) ≠ some 10 := by
  constructor
  · decide
  · decide

/-- C10 witness at a four-frame source with window 2. -/
theorem stabilize_frame_accounting_witness :
    (2 ≤ 2 ∧ 2 ≤ ([10, 20, 30, 40] : List Nat).length) ∧
    ((stabilizeModel 2 ([10, 20, 30, 40] : List Nat)).map (fun r => r.framesRead) =
        some ([10, 20, 30, 40] : List Nat).length ∧
      (stabilizeModel 2 ([10, 20, 30, 40] : List Nat)).map
          (fun r => r.emitted.map Prod.snd) =
        some (if ([10, 20, 30, 40] : List Nat).length ≤ 2 then
          ([10, 20, 30, 40] : List Nat).drop 1 else ([10, 20, 30, 40] : List Nat).drop 2) ∧
      (stabilizeModel 2 ([10, 20, 30, 40] : List Nat)).map (fun r => r.shapeFrame) =
        (if ([10, 20, 30, 40] : List Nat).length ≤ 2 then
          ([10, 20, 30, 40] : List Nat)[0]? else ([10, 20, 30, 40] : List Nat)[1]?) ∧
      (stabilizeModel 2 ([10, 20, 30, 40] : List Nat)).map (fun r => r.emitted.length) =
        some (if ([10, 20, 30, 40] : List Nat).length ≤ 2 then
          ([10, 20, 30, 40] : List Nat).length - 1 else
          ([10, 20, 30, 40] : List Nat).length - 2) ∧
      (if ([10, 20, 30, 40] : List Nat).length ≤ 2 then
          ([10, 20, 30, 40] : List Nat).length - 1 else
          ([10, 20, 30, 40] : List Nat).length - 2) <
        ([10, 20, 30, 40] : List Nat).length ∧
      (stabilizeModel 2 ([10, 20, 30, 40] : List Nat)).map (fun r => r.estCalls) =
        some (([10, 20, 30, 40] : List Nat).length - 1) ∧
      (stabilizeModel 2 ([10, 20, 30, 40] : List Nat)).map (fun r => r.ok) = some true) :=
  ⟨⟨by decide, by decide⟩,
    stabilize_frame_accounting ([10, 20, 30, 40] : List Nat) 2 (by decide) (by decide)⟩

/-- C5: `apply_transforms` forwards `use_stored_transforms=False` to
`stabilize` (line 310), so on a four-frame source the motion estimator is
invoked once per consecutive frame pair — three times, not zero: the stored
compensation transforms are not reused and motion estimation is re-run. -/
theorem apply_transforms_reruns_estimation :
    (apply_transforms_model 2 ([0, 1, 2, 3] : List Nat)).map (fun r => r.estCalls) =
      some 3 ∧
    (3 : Nat) ≠ 0 := by
  constructor
  · decide
  · decide

theorem map_fst_zip_take {α β : Type} :
    ∀ (l1 : List α) (l2 : List β), (l1.zip l2).map Prod.fst = l1.take l2.length := by
  intro l1
  induction l1 with
  | nil => intro l2; simp
  | cons x xs ih =>
    intro l2
    cases l2 with
    | nil => simp
    | cons y ys => simp [ih ys]

theorem streamLoop_over_emitted {α : Type} (w : Nat) (hw : 2 ≤ w) (q rem : List α)
    (hq : q.length = w - 1) :
    (streamLoop w rem q (List.range' 0 w)).emitted =
      if rem.isEmpty then (List.range' 0 w).zip q
      else (List.range' 1 (w - 1 + rem.length)).zip (q ++ rem) := by
  cases rem with
  | nil =>
    cases q with
    | nil =>
      simp at hq
      omega
    | cons x qt =>
      simp at hq
      have hd := drainLoop_true x qt (List.range' 0 w) (by rw [List.length_range']; omega)
      simp [streamLoop, hd]
  | cons g rem2 =>
    cases q with
    | nil =>
      simp at hq
      omega
    | cons c qt =>
      have hqt : qt.length = w - 2 := by
        simp at hq
        omega
      have hstep : streamLoop w (g :: rem2) (c :: qt) (List.range' 0 w) =
          ⟨(1, c) :: (streamLoop w rem2 (qt ++ [g]) (List.range' 2 (w - 1))).emitted,
            (streamLoop w rem2 (qt ++ [g]) (List.range' 2 (w - 1))).reads + 1,
            (streamLoop w rem2 (qt ++ [g]) (List.range' 2 (w - 1))).est + 1,
            (streamLoop w rem2 (qt ++ [g]) (List.range' 2 (w - 1))).ok⟩ := by
        simp only [streamLoop]
        rw [getLast?_range' w 0 (by omega)]
        dsimp only
        rw [show 0 + w - 1 + 1 = w from by omega]
        rw [dpush_small w (c :: qt) g (by simp [hqt]; omega)]
        rw [dpush_full w (List.range' 0 w) w (by simp)]
        rw [range'_zero_concat, range'_eq_cons 0 (w + 1) (by omega)]
        simp only [List.drop_succ_cons, List.drop_zero]
        rw [show (0 : Nat) + 1 = 1 from rfl, show w + 1 - 1 = w from by omega]
        rw [range'_eq_cons 1 w (by omega)]
        simp only [List.cons_append]
      have hsteady := streamLoop_steady w hw rem2 (qt ++ [g]) 2 (by simp [hqt]; omega)
      have hzip : (List.range' 1 (w - 1 + (rem2.length + 1))).zip (c :: (qt ++ g :: rem2)) =
          (1, c) :: (List.range' 2 (w - 1 + rem2.length)).zip (qt ++ g :: rem2) := by
        rw [range'_eq_cons 1 (w - 1 + (rem2.length + 1)) (by omega)]
        rw [show w - 1 + (rem2.length + 1) - 1 = w - 1 + rem2.length from by omega]
        rw [show (1 : Nat) + 1 = 2 from rfl]
        simp [List.zip_cons_cons]
      rw [hstep, hsteady]
      simp [hzip, List.append_assoc]

/-- C8 amended: an output frame is emitted without layering exactly when its
queue index is at most 1 (guard `i > 1`, line 274); every frame with index 2
or more is produced by applying the layering function with the newly warped
frame as foreground and the previous output frame as background, and each
emitted frame (layered or not) becomes the background for the next iteration.
Which frames skip the guard depends on the rendered index sequence: a source
exceeding the window by at least two frames yields emitted indices starting at
1 (the index deque evicts index 0), so only the first output frame is
unlayered, as the claim states; a source of at most `w + 1` frames yields
indices starting at 0, so the first two output frames are emitted unlayered. -/
theorem layering_guard_behavior {α : Type} (layer : α → α → α) (p0 : α) (a : Nat)
    (ws : List α) (src : List α) (w : Nat) (hw : 2 ≤ w) (hn : 2 ≤ src.length) :
    layerLoop layer p0 ((List.range' a ws.length).zip ws) =
      ws.take (2 - a) ++
        layerChain layer ((ws.take (2 - a)).getLastD p0) (ws.drop (2 - a)) ∧
    (stabilizeModel w src).map (fun r => r.emitted.map Prod.fst) =
      some (if src.length ≤ w then List.range' 0 (src.length - 1)
        else if src.length = w + 1 then List.range' 0 (src.length - 2)
        else List.range' 1 (src.length - 2)) := by
  refine ⟨layerLoop_of_range' layer p0 a ws, ?_⟩
  obtain ⟨f1, rest, rfl⟩ : ∃ f1 rest, src = f1 :: rest := by
    cases src with
    | nil => simp at hn
    | cons x l => exact ⟨x, l, rfl⟩
  obtain ⟨b, rest2, rfl⟩ : ∃ b rest2, rest = b :: rest2 := by
    cases rest with
    | nil => simp at hn
    | cons x l => exact ⟨x, l, rfl⟩
  obtain ⟨v, rfl⟩ : ∃ v, w = v + 2 := ⟨w - 2, by omega⟩
  by_cases hsmall : (b :: rest2).length + 1 ≤ v + 2
  · have hinit := initLoop_top (v + 2) (by omega) f1 (b :: rest2)
    rw [if_pos hsmall] at hinit
    have hd := drainLoop_true b rest2 (List.range' 0 (rest2.length + 1)) (by simp)
    have hs : streamLoop (v + 2) [] (b :: rest2) (List.range' 0 (b :: rest2).length) =
        ⟨(List.range' 0 (rest2.length + 1)).zip (b :: rest2), 0, 0, true⟩ := by
      simp [streamLoop, hd]
    have hcond : (f1 :: b :: rest2).length ≤ v + 2 := by
      simp at hsmall ⊢
      omega
    have hfst := List.map_fst_zip (List.range' 0 (rest2.length + 1)) (b :: rest2)
      (by simp)
    simp only [stabilizeModel, hinit]
    rw [hs]
    rw [if_pos hcond]
    simp [hfst]
  · have hlen : v + 1 ≤ rest2.length := by
      simp at hsmall
      omega
    have hinit := initLoop_top (v + 2) (by omega) f1 (b :: rest2)
    rw [if_neg hsmall] at hinit
    have htake : (b :: rest2).take (v + 2) = b :: rest2.take (v + 1) := rfl
    have hdrop : (b :: rest2).drop (v + 2) = rest2.drop (v + 1) := rfl
    rw [htake, hdrop] at hinit
    have hcond : ¬ ((f1 :: b :: rest2).length ≤ v + 2) := by
      simp at hsmall ⊢
      omega
    simp only [stabilizeModel, hinit]
    rw [if_neg hcond]
    by_cases hone : rest2.length ≤ v + 1
    · have hrlen : rest2.length = v + 1 := by omega
      have hrem : rest2.drop (v + 1) = [] := by
        have := List.length_drop (v + 1) rest2
        cases hdd : rest2.drop (v + 1) with
        | nil => rfl
        | cons x l =>
          rw [hdd] at this
          simp at this
          omega
      rw [hrem]
      have hemit := streamLoop_over_emitted (v + 2) (by omega) (rest2.take (v + 1)) []
        (by simp [List.length_take]; omega)
      simp only [List.isEmpty_nil, if_pos] at hemit
      rw [if_pos (show (f1 :: b :: rest2).length = v + 2 + 1 from by simp; omega)]
      have hqlen : (rest2.take (v + 1)).length = v + 1 := by
        simp [List.length_take]
        omega
      have htk : (List.range' 0 (v + 2)).take (v + 1) = List.range' 0 (v + 1) := by
        rw [← range'_zero_concat (v + 1)]
        exact List.take_left' (by simp)
      simp [hemit, map_fst_zip_take, hqlen, htk]
      omega
    · obtain ⟨g, rem2, hrem⟩ : ∃ g rem2, rest2.drop (v + 1) = g :: rem2 := by
        cases hdd : rest2.drop (v + 1) with
        | nil =>
          have := List.length_drop (v + 1) rest2
          rw [hdd] at this
          simp at this
          omega
        | cons x l => exact ⟨x, l, rfl⟩
      rw [hrem]
      have hemit := streamLoop_over_emitted (v + 2) (by omega) (rest2.take (v + 1))
        (g :: rem2) (by simp [List.length_take]; omega)
      simp only [List.isEmpty_cons, if_neg, Bool.false_eq_true, if_false] at hemit
      have hfst := List.map_fst_zip
        (List.range' 1 (v + 1 + (rem2.length + 1)))
        (rest2.take (v + 1) ++ g :: rem2)
        (by simp [List.length_take]; omega)
      rw [if_neg (show ¬ ((f1 :: b :: rest2).length = v + 2 + 1) from by
        have := congrArg List.length hrem
        simp at this ⊢
        omega)]
      have hlen2 : v + 1 + (rem2.length + 1) = rest2.length := by
        have := congrArg List.length hrem
        simp at this ⊢
        omega
      simp [hemit, hfst, hlen2]
      exact List.map_fst_zip _ _ (by simp [List.length_take]; omega)

/-- C8 witness at a five-frame source with window 2 (the long regime, emitted
indices starting at 1) and a layering run whose indices also start at 1. -/
theorem layering_guard_behavior_witness :
    (2 ≤ 2 ∧ 2 ≤ ([10, 20, 30, 40, 50] : List Nat).length) ∧
    (layerLoop (fun f b => f + b) (100 : Nat)
        ((List.range' 1 ([5, 7, 9] : List Nat).length).zip [5, 7, 9]) =
      ([5, 7, 9] : List Nat).take (2 - 1) ++
        layerChain (fun f b => f + b)
          ((([5, 7, 9] : List Nat).take (2 - 1)).getLastD 100)
          (([5, 7, 9] : List Nat).drop (2 - 1)) ∧
    (stabilizeModel 2 ([10, 20, 30, 40, 50] : List Nat)).map
        (fun r => r.emitted.map Prod.fst) =
      some (if ([10, 20, 30, 40, 50] : List Nat).length ≤ 2 then
          List.range' 0 (([10, 20, 30, 40, 50] : List Nat).length - 1)
        else if ([10, 20, 30, 40, 50] : List Nat).length = 2 + 1 then
          List.range' 0 (([10, 20, 30, 40, 50] : List Nat).length - 2)
        else List.range' 1 (([10, 20, 30, 40, 50] : List Nat).length - 2))) :=
  ⟨⟨by decide, by decide⟩,
    layering_guard_behavior (fun f b => f + b) 100 1 [5, 7, 9]
      ([10, 20, 30, 40, 50] : List Nat) 2 (by decide) (by decide)⟩
